import Mathlib

/-!
# Verification of the `upgrade` command of the Nuxt CLI

Shallow embedding of `src/commands/upgrade.ts`.  Pure helper functions
(`checkNuxtDependencyType`, `getNightlyVersion`, `getRequiredNewVersion`,
`normaliseLockFile`) are translated directly.  The effectful `run` command is
embedded as a function from an environment (the results every external
collaborator would return, plus the command-line arguments and the state of
the filesystem) to a trace of externally visible events together with the
final filesystem.

JavaScript values are modelled as follows: `string | undefined` becomes
`Option String`; JS truthiness of such a value is `some s` with `s`
non-empty; `string | string[] | undefined` becomes `Option JsStrings`; a
prompt result inspected with `typeof r === 'string'` becomes `JsVal`.
-/

namespace Upgrade

/-- A filesystem entry: a directory or a file with contents.  Used to model
the project tree that `existsSync`, `rmRecursive` and `touchFile` act on. -/
inductive FsEntry where
  | dir : FsEntry
  | file (contents : String) : FsEntry
deriving DecidableEq

/-- A filesystem: a partial map from absolute path strings to entries. -/
def FS : Type := String → Option FsEntry

/-- `existsSync p` from `node:fs`: the path is present in the filesystem. -/
def existsSync (fs : FS) (p : String) : Bool :=
  (fs p).isSome

/-- `resolve(cwd, p)` from `pathe`, an external collaborator: joins a project
root with a relative path.  Modelled as string concatenation with a
separator, adequate for the plain relative file names the command uses. -/
def pathResolve (cwd p : String) : String :=
  cwd ++ "/" ++ p

/-- `p` lies strictly below the directory `target`: `target ++ "/"` is a
prefix of `p` (compared on the underlying character lists). -/
def pathUnder (target p : String) : Bool :=
  (target ++ "/").data.isPrefixOf p.data

/-- Modelled from the spec: `rmRecursive` lives in `src/utils/fs`, which is
not part of the sources; the spec describes it as "recursively remove every
path in targets …; this must tolerate paths that do not exist (no-op, not an
error)".  Removing one target erases the entry at the path and every entry
strictly below it. -/
def rmOne (target : String) (fs : FS) : FS :=
  fun p => if p = target ∨ pathUnder target p then none else fs p

/-- Modelled from the spec: removal of a list of targets, in order. -/
def rmRecursive (targets : List String) (fs : FS) : FS :=
  targets.foldl (fun acc t => rmOne t acc) fs

/-- Modelled from the spec: `touchFile` lives in `src/utils/fs`, which is not
part of the sources; the spec describes the step as "recreate it as an empty
placeholder file" and lists "a file-touch/create primitive" among the
collaborators. -/
def touchFile (path : String) (fs : FS) : FS :=
  fun p => if p = path then some (FsEntry.file "") else fs p

/-- JS truthiness of a `string | undefined` value: defined and non-empty. -/
def jsTruthy : Option String → Bool
  | none => false
  | some s => !(s = "")

/-- A dependency map of a `package.json`: the field itself may be absent, and
when present it maps package names to version-range strings (an association
list). -/
def DepMap : Type := Option (List (String × String))

/-- `m?.[name]` on a possibly-absent dependency map. -/
def depLookup (m : DepMap) (name : String) : Option String :=
  match m with
  | none => none
  | some entries => entries.lookup name

/-- The slice of `PackageJson` (from `pkg-types`) that `run` reads. -/
structure PackageJson where
  dependencies : DepMap
  devDependencies : DepMap

/-- The result type of the `'dependencies' | 'devDependencies'` union. -/
inductive DepType where
  | dependencies
  | devDependencies
deriving DecidableEq

/-- `checkNuxtDependencyType` (upgrade.ts lines 29–37): production wins, then
development, defaulting to production.  The source tests JS truthiness of
`pkg.dependencies?.['nuxt']`, so an empty version string does not count. -/
def checkNuxtDependencyType (pkg : PackageJson) : DepType :=
  if jsTruthy (depLookup pkg.dependencies "nuxt") then .dependencies
  else if jsTruthy (depLookup pkg.devDependencies "nuxt") then .devDependencies
  else .dependencies

/-- The call site `pkg ? checkNuxtDependencyType(pkg) : 'dependencies'`
(upgrade.ts line 112): an absent manifest classifies as production. -/
def classifyDependencyType (pkg : Option PackageJson) : DepType :=
  match pkg with
  | some p => checkNuxtDependencyType p
  | none => .dependencies

/-- The fixed companion-package list (upgrade.ts line 113). -/
def corePackages : List String :=
  ["@nuxt/kit", "@nuxt/schema", "@nuxt/vite-builder", "@nuxt/webpack-builder",
   "@nuxt/rspack-builder"]

/-- `packagesToUpdate` (upgrade.ts line 115): companion packages declared in
either dependency map (JS truthiness), empty when the manifest is absent. -/
def packagesToUpdate (pkg : Option PackageJson) : List String :=
  match pkg with
  | some p => corePackages.filter fun q =>
      jsTruthy (depLookup p.dependencies q) || jsTruthy (depLookup p.devDependencies q)
  | none => []

/-- The fixed sub-channel → distribution-tag lookup table `nuxtVersionTags`
(upgrade.ts lines 39–42). -/
def nuxtVersionTags : List (String × String) :=
  [("3.x", "3x"), ("4.x", "latest")]

/-- A JavaScript value as far as `typeof result === 'string'` can see it:
either a string, or anything else (a cancellation symbol, a boolean, …). -/
inductive JsVal where
  | str (s : String)
  | nonString
deriving DecidableEq

/-- `nuxtVersionTags[v]` interpolated into a template literal: an absent key
reads as `undefined`, which prints as the string `"undefined"`. -/
def tagFor (v : String) : String :=
  (nuxtVersionTags.lookup v).getD "undefined"

/-- `typeof result === 'string' ? result : '3.x'` (upgrade.ts line 54). -/
def subChannelOf : JsVal → String
  | .str s => s
  | .nonString => "3.x"

/-- `getNightlyVersion` (upgrade.ts lines 44–59).  The select prompt is an
external collaborator; its result is passed in as a `JsVal`.  The source
keeps the result if it is a string and falls back to `'3.x'` otherwise, then
maps every base name to `<p>@npm:<p>-nightly@<tag>`. -/
def getNightlyVersion (packageNames : List String) (promptResult : JsVal) :
    List String × String :=
  let nuxtVersion := subChannelOf promptResult
  let npmPackages := packageNames.map fun p =>
    p ++ "@npm:" ++ p ++ "-nightly@" ++ tagFor nuxtVersion
  (npmPackages, nuxtVersion)

/-- `getRequiredNewVersion` (upgrade.ts lines 61–67): nightly channel defers
to `getNightlyVersion`; any other channel maps every name to `<p>@latest`
with version label `"3"`. -/
def getRequiredNewVersion (packageNames : List String) (channel : String)
    (promptResult : JsVal) : List String × String :=
  if channel = "nightly" then getNightlyVersion packageNames promptResult
  else (packageNames.map fun p => p ++ "@latest", "3")

/-- `string | string[]` — the shape of `nypm`'s `lockFile` field. -/
inductive JsStrings where
  | one (s : String)
  | many (l : List String)
deriving DecidableEq

/-- `normaliseLockFile` (upgrade.ts lines 204–218): normalise a single
string to a one-element array, then return the first candidate whose file
exists under `cwd`; `undefined` (with an error message emitted by the
caller's trace) when the candidates are absent or none exists. -/
def normaliseLockFile (fs : FS) (cwd : String) (lockFiles : Option JsStrings) :
    Option String :=
  let asList : Option (List String) := match lockFiles with
    | none => none
    | some (.one s) => some [s]
    | some (.many l) => some l
  match asList with
  | none => none
  | some files => files.find? fun file => existsSync fs (pathResolve cwd file)

/-- `getNuxtVersion` (upgrade.ts lines 16–27).  The raw collaborator result:
`none` models a thrown `readPackageJSON`, `some v` a package object whose
`version` field is `v` (`none` = field absent).  `pkg.version || null` makes
an absent or empty version read as null. -/
def getNuxtVersion (raw : Option (Option String)) : Option String :=
  match raw with
  | none => none
  | some v => if jsTruthy v then v else none

/-- The `nypm.detectPackageManager` result fields `run` destructures:
`{ name, lockFile }`. -/
structure PackageManager where
  name : String
  lockFile : Option JsStrings

/-- Every externally visible action of one `run`, in order, as the
collaborators and the operator would observe them (console messages, prompts,
filesystem calls, the installer call, `process.exit`). -/
inductive Event where
  | errorNoPackageManager
  | exit (code : Nat)
  | infoPackageManager (name version : String)
  | infoCurrentVersion (v : String)
  | selectPrompt (options : List String) (defaultChoice : String)
  | errorNoLockFile (cwd : String)
  | confirmPrompt (defaultAnswer : Bool)
  | infoRecreating (targets : List String)
  | rm (paths : List String)
  | touch (path : String)
  | infoInstalling (versionType nuxtVersion : String)
  | install (pkgs : List String) (dev : Bool)
  | cleanupDirs (cwd buildDir : String)
  | infoUpgradedVersion (v : String)
  | successAlreadyUpToDate
  | successUpgraded (previous updated : String)
  | infoChangelog (url : String)
deriving DecidableEq

/-- The inputs of one `run`: command-line arguments, and the value each
external collaborator returns when the pipeline consults it. -/
structure Env where
  /-- `resolve(ctx.args.cwd || ctx.args.rootDir)`, already resolved. -/
  cwd : String
  /-- `ctx.args.force` (`--force` / `--no-force` / absent). -/
  argsForce : Option Bool
  /-- `ctx.args.channel` (default `"stable"` applied by the arg parser). -/
  channel : String
  /-- `detectPackageManager(cwd)`. -/
  pm : Option PackageManager
  /-- `getPackageManagerVersion(name)`. -/
  pmVersion : String
  /-- `readPackageJSON('nuxt', { url: cwd })` before the upgrade. -/
  rawNuxtPkgBefore : Option (Option String)
  /-- `readPackageJSON(cwd).catch(() => null)`. -/
  pkg : Option PackageJson
  /-- The project filesystem when the run starts. -/
  fs0 : FS
  /-- The nightly sub-channel select prompt's answer, when consulted. -/
  nightlyPromptAnswer : JsVal
  /-- The force-reset confirm prompt's answer, when consulted. -/
  forcePromptAnswer : Bool
  /-- `loadNuxtConfig({ cwd }).buildDir`; `none` models a throw in the
  `try` block. -/
  buildDirConfig : Option String
  /-- `readPackageJSON('nuxt', { url: cwd })` after the upgrade. -/
  rawNuxtPkgAfter : Option (Option String)
  /-- `nuxtVersionToGitIdentifier`, an external collaborator from
  `src/utils/nuxt`: maps a version label to a git identifier, or fails. -/
  gitId : String → Option String

/-- Lines 131–139 of upgrade.ts: the force-reset decision.  Returns the
decision together with the prompt events emitted while making it: an explicit
`--force`/`--no-force` is used directly, otherwise the confirm prompt (with
default `true`) is consulted and its answer becomes the decision. -/
def decideForce (argsForce : Option Bool) (promptAnswer : Bool) :
    Bool × List Event :=
  match argsForce with
  | some b => (b, [])
  | none => (promptAnswer, [Event.confirmPrompt true])

/-- Lines 144–147 of upgrade.ts, the force branch's filesystem effect:
recursively remove `node_modules` and the located lock file (resolved against
`cwd`), then recreate the lock file as an empty file when one was located. -/
def forceApply (cwd : String) (lockFile : Option String) (fs : FS) : FS :=
  let toRemove := "node_modules" :: lockFile.toList
  let removed := rmRecursive (toRemove.map (pathResolve cwd)) fs
  match lockFile with
  | some lf => touchFile (pathResolve cwd lf) removed
  | none => removed

/-- Lines 175–200 of upgrade.ts: the report step.  An unknown upgraded
version ends the run silently; equal versions report "already up to date";
otherwise a success report, and — only when the previous version is known and
both labels map to git identifiers — a changelog comparison link. -/
def reportStep (currentVersion upgradedVersion : String)
    (gitId : String → Option String) : List Event :=
  if upgradedVersion = "[unknown]" then []
  else if upgradedVersion = currentVersion then [Event.successAlreadyUpToDate]
  else
    Event.successUpgraded currentVersion upgradedVersion ::
    (if currentVersion = "[unknown]" then []
     else match gitId currentVersion, gitId upgradedVersion with
       | some commitA, some commitB =>
           [Event.infoChangelog
             ("https://github.com/nuxt/nuxt/compare/" ++ commitA ++ "..." ++ commitB)]
       | _, _ => [])

/-- The dependency classification `run` computes at line 112. -/
def depTypeOf (env : Env) : DepType :=
  classifyDependencyType env.pkg

/-- The resolved install specifiers `run` computes at line 118. -/
def npmPackagesOf (env : Env) : List String :=
  (getRequiredNewVersion ("nuxt" :: packagesToUpdate env.pkg) env.channel
    env.nightlyPromptAnswer).1

/-- The lock file `run` locates at line 123. -/
def lockFileOf (env : Env) : Option String :=
  match env.pm with
  | some pm => normaliseLockFile env.fs0 env.cwd pm.lockFile
  | none => none

/-- The pipeline body of `run` once a package manager was detected
(upgrade.ts lines 101–200): version inspection, classification, version
resolution (prompting when nightly), lock-file location, force decision and
optional reset, installation, cleanup, and the report step. -/
def runMain (env : Env) (pm : PackageManager) : List Event × FS :=
  let currentVersion := (getNuxtVersion env.rawNuxtPkgBefore).getD "[unknown]"
  let nuxtVersion := (getRequiredNewVersion ("nuxt" :: packagesToUpdate env.pkg)
      env.channel env.nightlyPromptAnswer).2
  let nightlyPromptEvents :=
    if env.channel = "nightly" then [Event.selectPrompt ["3.x", "4.x"] "3.x"] else []
  let lockFile := normaliseLockFile env.fs0 env.cwd pm.lockFile
  let lockEvents := if lockFile.isNone then [Event.errorNoLockFile env.cwd] else []
  let toRemove := "node_modules" :: lockFile.toList
  let forced := decideForce env.argsForce env.forcePromptAnswer
  let forceEvents :=
    if forced.1 then
      [Event.infoRecreating toRemove, Event.rm (toRemove.map (pathResolve env.cwd))] ++
      (match lockFile with
       | some lf => [Event.touch (pathResolve env.cwd lf)]
       | none => [])
    else []
  let fs1 := if forced.1 then forceApply env.cwd lockFile env.fs0 else env.fs0
  let versionType := if env.channel = "nightly" then "nightly" else "latest stable"
  let buildDir := env.buildDirConfig.getD ".nuxt"
  let upgradedVersion := (getNuxtVersion env.rawNuxtPkgAfter).getD "[unknown]"
  ([Event.infoPackageManager pm.name env.pmVersion,
    Event.infoCurrentVersion currentVersion] ++
   nightlyPromptEvents ++
   lockEvents ++
   forced.2 ++
   forceEvents ++
   [Event.infoInstalling versionType nuxtVersion,
    Event.install (npmPackagesOf env)
      (if depTypeOf env = DepType.devDependencies then true else false),
    Event.cleanupDirs env.cwd buildDir,
    Event.infoUpgradedVersion upgradedVersion] ++
   reportStep currentVersion upgradedVersion env.gitId,
   fs1)

/-- The `run` handler of the upgrade command (upgrade.ts lines 90–201), as a
function from its environment to the trace of events it emits and the final
filesystem.  A missing package manager reports an error and exits with a
non-zero code before any other effect; otherwise the pipeline runs straight
through. -/
def run (env : Env) : List Event × FS :=
  match env.pm with
  | none => ([Event.errorNoPackageManager, Event.exit 1], env.fs0)
  | some pm => runMain env pm

/-- The report-step event kinds (success / already-up-to-date / changelog). -/
def isReportEvent : Event → Bool
  | .successAlreadyUpToDate => true
  | .successUpgraded _ _ => true
  | .infoChangelog _ => true
  | _ => false

/-- Process-termination events. -/
def isExitEvent : Event → Bool
  | .exit _ => true
  | _ => false

/-! ## Concrete fixtures used by witnesses and counterexamples -/

/-- A sample project tree where both lock-file candidates exist. -/
def sampleFs : FS := fun p =>
  if p = "/r/a.lock" ∨ p = "/r/b.lock" then some (FsEntry.file "x") else none

/-- A sample project tree with a populated dependency cache and a lock file. -/
def projFs : FS := fun p =>
  if p = "/proj/node_modules" then some FsEntry.dir
  else if p = "/proj/node_modules/nuxt" then some FsEntry.dir
  else if p = "/proj/yarn.lock" then some (FsEntry.file "lock") else none

/-- An environment whose package manager was detected with one lock-file
candidate, but whose project root contains no file at all — in particular no
lock-file candidate exists — run with an explicit `--force`. -/
def envNoLock : Env :=
  { cwd := "/proj"
    argsForce := some true
    channel := "stable"
    pm := some { name := "npm", lockFile := some (.many ["package-lock.json"]) }
    pmVersion := "10"
    rawNuxtPkgBefore := some (some "3.9.0")
    pkg := none
    fs0 := fun _ => none
    nightlyPromptAnswer := .nonString
    forcePromptAnswer := true
    buildDirConfig := none
    rawNuxtPkgAfter := some (some "3.10.0")
    gitId := fun _ => none }

/-- A fully populated stable-channel environment: lock file present, manifest
declaring nuxt as a devDependency, no explicit force flag. -/
def envFull : Env :=
  { cwd := "/proj"
    argsForce := none
    channel := "stable"
    pm := some { name := "yarn", lockFile := some (.one "yarn.lock") }
    pmVersion := "1.22"
    rawNuxtPkgBefore := some (some "3.9.0")
    pkg := some { dependencies := some []
                  devDependencies := some [("nuxt", "^3.9.0")] }
    fs0 := projFs
    nightlyPromptAnswer := .nonString
    forcePromptAnswer := true
    buildDirConfig := some ".nuxt"
    rawNuxtPkgAfter := some (some "3.10.0")
    gitId := fun v => if v = "3.9.0" then some "v3.9.0"
             else if v = "3.10.0" then some "v3.10.0" else none }

/-! ## Helper lemmas -/

/-- `List.find?` returns the first hit: any elements before it fail the
predicate, everything after it is irrelevant. -/
theorem find?_first {α : Type} (p : α → Bool) (ys : List α) (f : α) (zs : List α)
    (hys : ∀ g ∈ ys, p g = false) (hf : p f = true) :
    (ys ++ f :: zs).find? p = some f := by
  induction ys with
  | nil => simp [List.find?_cons, hf]
  | cons y ys ih =>
      have hy : p y = false := hys y (by simp)
      simpa [List.find?_cons, hy] using ih fun g hg => hys g (by simp [hg])

/-- Resolving two relative paths against the same root is injective. -/
theorem pathResolve_inj {cwd a b : String} (h : pathResolve cwd a = pathResolve cwd b) :
    a = b := by
  have hd := congrArg String.data h
  simp only [pathResolve, String.data_append, List.append_assoc] at hd
  exact String.ext (List.append_cancel_left (List.append_cancel_left hd))

/-- Being under a directory is invariant under resolving both sides against
the same project root. -/
theorem pathUnder_resolve (cwd a b : String) :
    pathUnder (pathResolve cwd a) (pathResolve cwd b) = pathUnder a b := by
  have hbool : ∀ x y : Bool, (x = true ↔ y = true) → x = y := by decide
  apply hbool
  simp only [pathUnder, List.isPrefixOf_iff_prefix, pathResolve, String.data_append,
    List.append_assoc]
  rw [List.prefix_append_right_inj, List.prefix_append_right_inj]

/-- Nothing is strictly under itself. -/
theorem pathUnder_ne {t p : String} (h : pathUnder t p = true) : p ≠ t := by
  intro hpt
  subst hpt
  have hpre : (p ++ "/").data <+: p.data := List.isPrefixOf_iff_prefix.mp h
  have hlen := hpre.length_le
  simp [String.data_append] at hlen

/-- Unfolding `run` when a package manager was detected. -/
theorem run_of_pm {env : Env} {pm : PackageManager} (hpm : env.pm = some pm) :
    run env = runMain env pm := by
  simp [run, hpm]

/-- Every event of the report step is a report-kind event. -/
theorem mem_reportStep_isReport {e : Event} {cv uv : String}
    {g : String → Option String} (h : e ∈ reportStep cv uv g) :
    isReportEvent e = true := by
  simp only [reportStep] at h
  split at h
  · simp at h
  · split at h
    · simp at h
      subst h
      rfl
    · rcases List.mem_cons.mp h with rfl | h2
      · rfl
      · split at h2
        · simp at h2
        · split at h2
          · simp at h2
            subst h2
            rfl
          · simp at h2

/-- Non-report events never occur in the report step. -/
theorem not_mem_reportStep {e : Event} (he : isReportEvent e = false)
    (cv uv : String) (g : String → Option String) : e ∉ reportStep cv uv g :=
  fun h => by rw [mem_reportStep_isReport h] at he; exact Bool.noConfusion he

/-- Filtering the report step for report-kind events keeps it intact. -/
theorem filter_reportStep (cv uv : String) (g : String → Option String) :
    (reportStep cv uv g).filter isReportEvent = reportStep cv uv g :=
  List.filter_eq_self.mpr fun _ he => mem_reportStep_isReport he

/-- Which events one pipeline run can contain, and under which conditions:
the fixed informational events, the nightly select prompt exactly on the
nightly channel, the lock-file error exactly when no candidate exists, the
force confirm prompt exactly when no explicit flag was given, the
reset events exactly when the decision is positive (touch only with a
located lock file), the installer invocation, and the report step. -/
theorem mem_runMain_iff (env : Env) (pm : PackageManager) (e : Event) :
    e ∈ (runMain env pm).1 ↔
      e = Event.infoPackageManager pm.name env.pmVersion ∨
      e = Event.infoCurrentVersion
            ((getNuxtVersion env.rawNuxtPkgBefore).getD "[unknown]") ∨
      (env.channel = "nightly" ∧ e = Event.selectPrompt ["3.x", "4.x"] "3.x") ∨
      (normaliseLockFile env.fs0 env.cwd pm.lockFile = none ∧
        e = Event.errorNoLockFile env.cwd) ∨
      (env.argsForce = none ∧ e = Event.confirmPrompt true) ∨
      ((decideForce env.argsForce env.forcePromptAnswer).1 = true ∧
        (e = Event.infoRecreating
              ("node_modules" ::
                (normaliseLockFile env.fs0 env.cwd pm.lockFile).toList) ∨
         e = Event.rm
              (("node_modules" ::
                (normaliseLockFile env.fs0 env.cwd pm.lockFile).toList).map
                  (pathResolve env.cwd)) ∨
         (∃ lf, normaliseLockFile env.fs0 env.cwd pm.lockFile = some lf ∧
            e = Event.touch (pathResolve env.cwd lf)))) ∨
      e = Event.infoInstalling
            (if env.channel = "nightly" then "nightly" else "latest stable")
            ((getRequiredNewVersion ("nuxt" :: packagesToUpdate env.pkg)
              env.channel env.nightlyPromptAnswer).2) ∨
      e = Event.install (npmPackagesOf env)
            (if depTypeOf env = DepType.devDependencies then true else false) ∨
      e = Event.cleanupDirs env.cwd (env.buildDirConfig.getD ".nuxt") ∨
      e = Event.infoUpgradedVersion
            ((getNuxtVersion env.rawNuxtPkgAfter).getD "[unknown]") ∨
      e ∈ reportStep ((getNuxtVersion env.rawNuxtPkgBefore).getD "[unknown]")
            ((getNuxtVersion env.rawNuxtPkgAfter).getD "[unknown]") env.gitId := by
  cases hlk : normaliseLockFile env.fs0 env.cwd pm.lockFile with
  | none =>
      cases harg : env.argsForce with
      | none =>
          cases hfp : env.forcePromptAnswer <;>
            simp [runMain, decideForce, hlk, harg, hfp, List.mem_append,
              List.mem_cons, or_assoc]
      | some b =>
          cases b <;>
            simp [runMain, decideForce, hlk, harg, List.mem_append,
              List.mem_cons, or_assoc]
  | some lf =>
      cases harg : env.argsForce with
      | none =>
          cases hfp : env.forcePromptAnswer <;>
            simp [runMain, decideForce, hlk, harg, hfp, List.mem_append,
              List.mem_cons, or_assoc]
      | some b =>
          cases b <;>
            simp [runMain, decideForce, hlk, harg, List.mem_append,
              List.mem_cons, or_assoc]

/-! ## C5 — lock-file location -/

/-- C5: `normaliseLockFile` treats a single candidate string as a one-element
sequence; absent candidates locate nothing; when no candidate's file exists
under the project root it returns `none`; and it returns the first candidate,
in descriptor order, whose file exists — so when several candidate files
exist simultaneously, the earliest in descriptor order wins. -/
theorem normaliseLockFile_first_existing (fs : FS) (cwd : String) :
    (∀ s, normaliseLockFile fs cwd (some (.one s)) =
       normaliseLockFile fs cwd (some (.many [s]))) ∧
    normaliseLockFile fs cwd none = none ∧
    (∀ files, (∀ f ∈ files, existsSync fs (pathResolve cwd f) = false) →
       normaliseLockFile fs cwd (some (.many files)) = none) ∧
    (∀ misses f rest, (∀ g ∈ misses, existsSync fs (pathResolve cwd g) = false) →
       existsSync fs (pathResolve cwd f) = true →
       normaliseLockFile fs cwd (some (.many (misses ++ f :: rest))) = some f) := by
  refine ⟨fun s => rfl, rfl, fun files h => ?_, fun misses f rest h hf => ?_⟩
  · simpa [normaliseLockFile] using List.find?_eq_none.mpr (by simpa using h)
  · simpa [normaliseLockFile] using find?_first _ misses f rest h hf

/-- C5 witness: with both `a.lock` and `b.lock` present under `/r`, the first
candidate in descriptor order wins. -/
theorem normaliseLockFile_first_existing_witness :
    normaliseLockFile sampleFs "/r" (some (.many ["a.lock", "b.lock"])) =
      some "a.lock" :=
  (normaliseLockFile_first_existing sampleFs "/r").2.2.2 [] "a.lock" ["b.lock"]
    (by simp) (by decide)

/-! ## C6 — dependency-type classification -/

/-- C6 counterexample: `"nuxt"` appears in both dependency maps of this
manifest, yet `checkNuxtDependencyType` returns `devDependencies`, because
the source tests JS truthiness of the map entry and the production entry is
the empty string (falsy).  The claim as stated ("returns `dependencies` …
when the primary package name appears in the production dependency map,
including when it appears in both maps") is therefore false on the code. -/
theorem checkNuxtDependencyType_counterexample :
    (depLookup (some [("nuxt", "")]) "nuxt").isSome = true ∧
    (depLookup (some [("nuxt", "^3.0.0")]) "nuxt").isSome = true ∧
    checkNuxtDependencyType
      { dependencies := some [("nuxt", "")],
        devDependencies := some [("nuxt", "^3.0.0")] } =
      DepType.devDependencies := by
  refine ⟨rfl, rfl, ?_⟩
  decide

/-- C6 (amended): classification is total and deterministic into the two
labels, and it returns `devDependencies` exactly when the manifest is present
and `"nuxt"` has a truthy (non-empty) entry in the development map but not in
the production map; in every other case — manifest absent, truthy in
production (including both maps), or truthy in neither — it returns
`dependencies`. -/
theorem classifyDependencyType_characterisation (pkg : Option PackageJson) :
    (classifyDependencyType pkg = DepType.devDependencies ↔
      ∃ p, pkg = some p ∧
        jsTruthy (depLookup p.devDependencies "nuxt") = true ∧
        jsTruthy (depLookup p.dependencies "nuxt") = false) ∧
    (classifyDependencyType pkg = DepType.dependencies ∨
     classifyDependencyType pkg = DepType.devDependencies) := by
  constructor
  · cases pkg with
    | none => simp [classifyDependencyType]
    | some p =>
        simp only [classifyDependencyType, checkNuxtDependencyType]
        by_cases hd : jsTruthy (depLookup p.dependencies "nuxt") = true
        · simp [hd]
        · by_cases hv : jsTruthy (depLookup p.devDependencies "nuxt") = true
          · simp_all
          · simp_all
  · cases h : classifyDependencyType pkg with
    | dependencies => exact Or.inl rfl
    | devDependencies => exact Or.inr rfl

/-! ## C7 / C8 / C10 — version-channel resolution -/

/-- C7: a non-nightly channel maps every base name to `<name>@latest` (with
the generic stable label `"3"`); the nightly channel maps every base name to
`<name>@npm:<name>-nightly@<tag>` with the tag drawn from the fixed lookup
table — the 3.x line (also the default taken on a non-string prompt result)
maps to the versioned tag `3x`, the 4.x line maps to `latest`. -/
theorem getRequiredNewVersion_channels (names : List String) (channel : String)
    (pr : JsVal) :
    (channel ≠ "nightly" →
      getRequiredNewVersion names channel pr =
        (names.map fun p => p ++ "@latest", "3")) ∧
    (channel = "nightly" → pr = .str "3.x" ∨ pr = .nonString →
      (getRequiredNewVersion names channel pr).1 =
        names.map fun p => p ++ "@npm:" ++ p ++ "-nightly@3x") ∧
    (channel = "nightly" → pr = .str "4.x" →
      (getRequiredNewVersion names channel pr).1 =
        names.map fun p => p ++ "@npm:" ++ p ++ "-nightly@latest") ∧
    (channel = "nightly" → pr = .nonString →
      (getRequiredNewVersion names channel pr).2 = "3.x") := by
  refine ⟨fun h => by simp [getRequiredNewVersion, h], fun hc hpr => ?_,
          fun hc hpr => ?_, fun hc hpr => ?_⟩
  · have htag : ∀ p : String,
        p ++ "@npm:" ++ p ++ "-nightly@" ++ tagFor "3.x" =
        p ++ "@npm:" ++ p ++ "-nightly@3x" := by
      intro p
      rw [show tagFor "3.x" = "3x" from rfl, String.append_assoc,
        show ("-nightly@" : String) ++ "3x" = "-nightly@3x" from rfl]
    rcases hpr with h | h <;>
      simp [getRequiredNewVersion, getNightlyVersion, subChannelOf, hc, h, htag]
  · have htag : ∀ p : String,
        p ++ "@npm:" ++ p ++ "-nightly@" ++ tagFor "4.x" =
        p ++ "@npm:" ++ p ++ "-nightly@latest" := by
      intro p
      rw [show tagFor "4.x" = "latest" from rfl, String.append_assoc,
        show ("-nightly@" : String) ++ "latest" = "-nightly@latest" from rfl]
    simp [getRequiredNewVersion, getNightlyVersion, subChannelOf, hc, hpr, htag]
  · simp [getRequiredNewVersion, getNightlyVersion, subChannelOf, hc, hpr]

/-- C7 witness: concrete resolutions on both channels. -/
theorem getRequiredNewVersion_channels_witness :
    (getRequiredNewVersion ["nuxt"] "stable" JsVal.nonString =
      (["nuxt@latest"], "3")) ∧
    (getRequiredNewVersion ["nuxt"] "nightly" (JsVal.str "4.x")).1 =
      ["nuxt@npm:nuxt-nightly@latest"] := by
  constructor
  · have h := (getRequiredNewVersion_channels ["nuxt"] "stable" JsVal.nonString).1
      (by decide)
    simpa using h
  · have h := (getRequiredNewVersion_channels ["nuxt"] "nightly"
      (JsVal.str "4.x")).2.2.1 rfl rfl
    simpa using h

/-- C8: for every input sequence of base names and every channel (and every
prompt outcome), the resolved specifier sequence has the same length as the
input, and the specifier at each position is built from the base name at the
same position (`<name>@…`) — no base name is dropped, duplicated or
reordered. -/
theorem getRequiredNewVersion_length_order (names : List String)
    (channel : String) (pr : JsVal) :
    (getRequiredNewVersion names channel pr).1.length = names.length ∧
    ∀ i, i < names.length →
      ∃ name rest, names[i]? = some name ∧
        (getRequiredNewVersion names channel pr).1[i]? =
          some (name ++ "@" ++ rest) := by
  have hsplit : ∀ (f : String → String) (suffix : String → String),
      (∀ p, f p = p ++ "@" ++ suffix p) →
      (names.map f).length = names.length ∧
      ∀ i, i < names.length →
        ∃ name rest, names[i]? = some name ∧
          (names.map f)[i]? = some (name ++ "@" ++ rest) := by
    intro f suffix hf
    refine ⟨List.length_map names f, fun i hi => ?_⟩
    refine ⟨names[i], suffix names[i], List.getElem?_eq_getElem hi, ?_⟩
    rw [List.getElem?_map, List.getElem?_eq_getElem hi]
    simp [hf]
  by_cases hc : channel = "nightly"
  · have hmk : ∀ p : String,
        p ++ "@npm:" ++ p ++ "-nightly@" ++ tagFor (subChannelOf pr) =
          p ++ "@" ++ ("npm:" ++ p ++ "-nightly@" ++ tagFor (subChannelOf pr)) := by
      intro p
      rw [show ("@npm:" : String) = "@" ++ "npm:" from rfl]
      simp only [String.append_assoc]
    simpa [getRequiredNewVersion, getNightlyVersion, hc] using
      hsplit (fun p => p ++ "@npm:" ++ p ++ "-nightly@" ++ tagFor (subChannelOf pr))
        (fun p => "npm:" ++ p ++ "-nightly@" ++ tagFor (subChannelOf pr)) hmk
  · have hmk : ∀ p : String, p ++ "@latest" = p ++ "@" ++ "latest" := by
      intro p
      rw [String.append_assoc, show ("@" : String) ++ "latest" = "@latest" from rfl]
    simpa [getRequiredNewVersion, hc] using
      hsplit (fun p => p ++ "@latest") (fun _ => "latest") hmk

/-- C8 witness: a concrete one-element resolution, position 0. -/
theorem getRequiredNewVersion_length_order_witness :
    0 < (["nuxt"] : List String).length ∧
    ∃ name rest, (["nuxt"] : List String)[0]? = some name ∧
      (getRequiredNewVersion ["nuxt"] "stable" JsVal.nonString).1[0]? =
        some (name ++ "@" ++ rest) :=
  ⟨by decide,
   (getRequiredNewVersion_length_order ["nuxt"] "stable" JsVal.nonString).2 0
     (by decide)⟩

/-- C10: when the nightly sub-channel prompt yields a non-string value (a
cancelled or aborted prompt), `getNightlyVersion` silently falls back to the
`3.x` sub-channel: the resolved label is `"3.x"` and every base name gets the
well-formed specifier `<name>@npm:<name>-nightly@3x` built from the lookup
table's `3x` tag. -/
theorem getNightlyVersion_nonString_fallback (names : List String) :
    getNightlyVersion names JsVal.nonString =
      (names.map fun p => p ++ "@npm:" ++ p ++ "-nightly@3x", "3.x") := by
  have htag : ∀ p : String,
      p ++ "@npm:" ++ p ++ "-nightly@" ++ tagFor "3.x" =
      p ++ "@npm:" ++ p ++ "-nightly@3x" := by
    intro p
    rw [show tagFor "3.x" = "3x" from rfl, String.append_assoc,
      show ("-nightly@" : String) ++ "3x" = "-nightly@3x" from rfl]
  simp [getNightlyVersion, subChannelOf, htag]

/-! ## C3 — force reset -/

/-- C3: when the force decision is true, the applied reset removes every
target path — the dependency cache `node_modules` (and everything below it)
always, and the located lock file (and everything below it) when there is
one.  The statement quantifies over every starting filesystem, including ones
where the targets do not exist, so absence of a target is a no-op, not an
error.  Afterwards, if a lock-file path was among the targets, that exact
path exists again as an empty file, and no path outside the targets (other
than the recreated lock file) is affected.  The hypothesis records that the
located lock file is a path distinct from (and not inside) the dependency
cache directory. -/
theorem forceApply_force_reset (cwd : String) (lockFile : Option String) (fs : FS)
    (hname : ∀ lf, lockFile = some lf →
      lf ≠ "node_modules" ∧ pathUnder "node_modules" lf = false) :
    (forceApply cwd lockFile fs (pathResolve cwd "node_modules") = none) ∧
    (∀ p, pathUnder (pathResolve cwd "node_modules") p = true →
       forceApply cwd lockFile fs p = none) ∧
    (∀ lf, lockFile = some lf →
       forceApply cwd lockFile fs (pathResolve cwd lf) = some (FsEntry.file "")) ∧
    (∀ lf, lockFile = some lf → ∀ p, pathUnder (pathResolve cwd lf) p = true →
       forceApply cwd lockFile fs p = none) ∧
    (∀ p, forceApply cwd lockFile fs p ≠ fs p →
       p = pathResolve cwd "node_modules" ∨
       pathUnder (pathResolve cwd "node_modules") p = true ∨
       ∃ lf, lockFile = some lf ∧
         (p = pathResolve cwd lf ∨ pathUnder (pathResolve cwd lf) p = true)) := by
  cases lockFile with
  | none =>
      have hfa : forceApply cwd none fs = rmOne (pathResolve cwd "node_modules") fs :=
        rfl
      refine ⟨?_, ?_, ?_, ?_, ?_⟩
      · rw [hfa]
        simp [rmOne]
      · intro p hp
        rw [hfa]
        simp [rmOne, hp]
      · intro lf hlf
        exact absurd hlf (by simp)
      · intro lf hlf
        exact absurd hlf (by simp)
      · intro p hp
        rw [hfa] at hp
        simp only [rmOne] at hp
        by_cases hc : p = pathResolve cwd "node_modules" ∨
            pathUnder (pathResolve cwd "node_modules") p = true
        · rcases hc with hc | hc
          · exact Or.inl hc
          · exact Or.inr (Or.inl hc)
        · rw [if_neg (by simpa using hc)] at hp
          exact absurd rfl hp
  | some lf =>
      obtain ⟨hne, hunder⟩ := hname lf rfl
      have hlfp : pathResolve cwd lf ≠ pathResolve cwd "node_modules" :=
        fun h => hne (pathResolve_inj h)
      have hlfUnder : pathUnder (pathResolve cwd "node_modules") (pathResolve cwd lf)
          = false := by rw [pathUnder_resolve]; exact hunder
      have hfa : forceApply cwd (some lf) fs =
          touchFile (pathResolve cwd lf)
            (rmOne (pathResolve cwd lf)
              (rmOne (pathResolve cwd "node_modules") fs)) := rfl
      refine ⟨?_, ?_, ?_, ?_, ?_⟩
      · rw [hfa]
        simp only [touchFile, rmOne]
        rw [if_neg (Ne.symm hlfp)]
        by_cases hc : pathResolve cwd "node_modules" = pathResolve cwd lf ∨
            pathUnder (pathResolve cwd lf) (pathResolve cwd "node_modules") = true
        · rw [if_pos hc]
        · rw [if_neg hc]
          simp
      · intro p hp
        rw [hfa]
        simp only [touchFile, rmOne]
        have hplf : p ≠ pathResolve cwd lf := by
          intro h
          rw [h, hlfUnder] at hp
          exact Bool.false_ne_true hp
        rw [if_neg hplf]
        by_cases hc : p = pathResolve cwd lf ∨
            pathUnder (pathResolve cwd lf) p = true
        · rw [if_pos hc]
        · rw [if_neg hc]
          simp [hp]
      · intro lf' hlf'
        injection hlf' with h
        subst h
        rw [hfa]
        simp [touchFile]
      · intro lf' hlf' p hp
        injection hlf' with h
        subst h
        have hplf : p ≠ pathResolve cwd lf := pathUnder_ne hp
        rw [hfa]
        simp only [touchFile, rmOne]
        rw [if_neg hplf, if_pos (Or.inr hp)]
      · intro p hp
        rw [hfa] at hp
        simp only [touchFile, rmOne] at hp
        by_cases h1 : p = pathResolve cwd lf
        · exact Or.inr (Or.inr ⟨lf, rfl, Or.inl h1⟩)
        · rw [if_neg h1] at hp
          by_cases h2 : p = pathResolve cwd lf ∨ pathUnder (pathResolve cwd lf) p = true
          · rcases h2 with h2 | h2
            · exact absurd h2 h1
            · exact Or.inr (Or.inr ⟨lf, rfl, Or.inr h2⟩)
          · rw [if_neg h2] at hp
            by_cases h3 : p = pathResolve cwd "node_modules" ∨
                pathUnder (pathResolve cwd "node_modules") p = true
            · rcases h3 with h3 | h3
              · exact Or.inl h3
              · exact Or.inr (Or.inl h3)
            · rw [if_neg h3] at hp
              exact absurd rfl hp

/-- C3 witness: a concrete force reset on a populated project tree, plus the
same reset on a completely empty tree (the targets do not exist, yet the
reset succeeds and still leaves the lock file as an empty file). -/
theorem forceApply_force_reset_witness :
    forceApply "/proj" (some "yarn.lock") projFs "/proj/node_modules" = none ∧
    forceApply "/proj" (some "yarn.lock") projFs "/proj/node_modules/nuxt" = none ∧
    forceApply "/proj" (some "yarn.lock") projFs "/proj/yarn.lock" =
      some (FsEntry.file "") ∧
    forceApply "/proj" (some "yarn.lock") (fun _ => none) "/proj/yarn.lock" =
      some (FsEntry.file "") := by
  have h1 := forceApply_force_reset "/proj" (some "yarn.lock") projFs
    (fun lf hlf => by
      injection hlf.symm with h
      subst h
      exact ⟨by decide, by decide⟩)
  have h2 := forceApply_force_reset "/proj" (some "yarn.lock") (fun _ => none)
    (fun lf hlf => by
      injection hlf.symm with h
      subst h
      exact ⟨by decide, by decide⟩)
  exact ⟨h1.1, h1.2.1 "/proj/node_modules/nuxt" (by decide),
    h1.2.2.1 "yarn.lock" rfl, h2.2.2.1 "yarn.lock" rfl⟩

/-! ## C1 — missing lock file does not abort the run -/

/-- The report segment of a pipeline run is exactly the report step. -/
theorem filter_report_runMain (env : Env) (pm : PackageManager) :
    (runMain env pm).1.filter isReportEvent =
      reportStep ((getNuxtVersion env.rawNuxtPkgBefore).getD "[unknown]")
        ((getNuxtVersion env.rawNuxtPkgAfter).getD "[unknown]") env.gitId := by
  cases hlk : normaliseLockFile env.fs0 env.cwd pm.lockFile with
  | none =>
      cases harg : env.argsForce with
      | none =>
          cases hfp : env.forcePromptAnswer <;>
            simp [runMain, decideForce, hlk, harg, hfp, List.filter_append,
              isReportEvent, filter_reportStep]
      | some b =>
          cases b <;>
            simp [runMain, decideForce, hlk, harg, List.filter_append,
              isReportEvent, filter_reportStep]
  | some lf =>
      cases harg : env.argsForce with
      | none =>
          cases hfp : env.forcePromptAnswer <;>
            simp [runMain, decideForce, hlk, harg, hfp, List.filter_append,
              isReportEvent, filter_reportStep]
      | some b =>
          cases b <;>
            simp [runMain, decideForce, hlk, harg, List.filter_append,
              isReportEvent, filter_reportStep]

/-- C1 counterexample: in `envNoLock` the detected package manager has one
lock-file candidate and the project root contains no file, so no candidate
exists — yet the run does not fail before mutating: it removes the dependency
cache, runs the installer, and emits no exit event at all.  This refutes the
claim that the run fails before any filesystem mutation when no candidate
exists. -/
theorem run_no_lockfile_counterexample :
    normaliseLockFile envNoLock.fs0 envNoLock.cwd
      (some (.many ["package-lock.json"])) = none ∧
    Event.rm ["/proj/node_modules"] ∈ (run envNoLock).1 ∧
    Event.install ["nuxt@latest"] false ∈ (run envNoLock).1 ∧
    (run envNoLock).1.filter isExitEvent = [] := by
  decide

/-- C1 (amended): if none of the lock-file candidates exists under the
project root, the run reports the lock-file error but does not fail: no exit
event is emitted, no lock file is ever touched, the dependency cache is the
only removal target of a force reset, and the run still proceeds to the
installer invocation. -/
theorem run_no_lockfile_proceeds (env : Env) (pm : PackageManager)
    (hpm : env.pm = some pm)
    (hnolock : normaliseLockFile env.fs0 env.cwd pm.lockFile = none) :
    Event.errorNoLockFile env.cwd ∈ (run env).1 ∧
    (∀ p, Event.touch p ∉ (run env).1) ∧
    (∀ n, Event.exit n ∉ (run env).1) ∧
    Event.install (npmPackagesOf env)
      (if depTypeOf env = DepType.devDependencies then true else false) ∈
        (run env).1 ∧
    (run env).2 = (if (decideForce env.argsForce env.forcePromptAnswer).1 = true
      then rmOne (pathResolve env.cwd "node_modules") env.fs0 else env.fs0) := by
  rw [run_of_pm hpm]
  refine ⟨?_, ?_, ?_, ?_, ?_⟩
  · rw [mem_runMain_iff]
    simp [hnolock]
  · intro p
    have hrep := not_mem_reportStep (e := Event.touch p) rfl
      ((getNuxtVersion env.rawNuxtPkgBefore).getD "[unknown]")
      ((getNuxtVersion env.rawNuxtPkgAfter).getD "[unknown]") env.gitId
    rw [mem_runMain_iff]
    simp [hnolock, hrep]
  · intro n
    have hrep := not_mem_reportStep (e := Event.exit n) rfl
      ((getNuxtVersion env.rawNuxtPkgBefore).getD "[unknown]")
      ((getNuxtVersion env.rawNuxtPkgAfter).getD "[unknown]") env.gitId
    rw [mem_runMain_iff]
    simp [hrep]
  · rw [mem_runMain_iff]
    simp
  · simp [runMain, hnolock, forceApply, rmRecursive]

/-- C1 witness: the amended behaviour at the concrete `envNoLock`. -/
theorem run_no_lockfile_proceeds_witness :
    Event.errorNoLockFile "/proj" ∈ (run envNoLock).1 ∧
    Event.touch "/proj/package-lock.json" ∉ (run envNoLock).1 ∧
    Event.exit 1 ∉ (run envNoLock).1 := by
  have h := run_no_lockfile_proceeds envNoLock
    { name := "npm", lockFile := some (.many ["package-lock.json"]) } rfl (by decide)
  exact ⟨h.1, h.2.1 "/proj/package-lock.json", h.2.2.1 1⟩

/-! ## C2 — the report step -/

/-- C2: the report-kind events of a run are exactly the report step, and the
report step behaves as specified: an unknown post-upgrade version ends the
run with no report at all; a post-upgrade version exactly string-equal to the
pre-upgrade version reports "already up to date" with no changelog link;
otherwise a success report carries both versions, and a changelog comparison
link appears exactly when the pre-upgrade version was known and both version
labels map to git identifiers (the link then embeds both identifiers). -/
theorem run_report_behaviour (env : Env) (pm : PackageManager)
    (hpm : env.pm = some pm) :
    ((run env).1.filter isReportEvent =
      reportStep ((getNuxtVersion env.rawNuxtPkgBefore).getD "[unknown]")
        ((getNuxtVersion env.rawNuxtPkgAfter).getD "[unknown]") env.gitId) ∧
    (∀ cv uv (g : String → Option String), uv = "[unknown]" →
       reportStep cv uv g = []) ∧
    (∀ cv uv (g : String → Option String), uv ≠ "[unknown]" → uv = cv →
       reportStep cv uv g = [Event.successAlreadyUpToDate]) ∧
    (∀ cv uv (g : String → Option String), uv ≠ "[unknown]" → uv ≠ cv →
       Event.successUpgraded cv uv ∈ reportStep cv uv g ∧
       (∀ u, Event.infoChangelog u ∈ reportStep cv uv g ↔
          (cv ≠ "[unknown]" ∧ ∃ a b, g cv = some a ∧ g uv = some b ∧
            u = "https://github.com/nuxt/nuxt/compare/" ++ a ++ "..." ++ b))) := by
  refine ⟨?_, ?_, ?_, ?_⟩
  · rw [run_of_pm hpm]
    exact filter_report_runMain env pm
  · intro cv uv g h
    simp [reportStep, h]
  · intro cv uv g h1 h2
    subst h2
    simp [reportStep, h1]
  · intro cv uv g h1 h2
    have hne : ¬ uv = cv := h2
    refine ⟨by simp [reportStep, h1, hne], fun u => ?_⟩
    by_cases hcv : cv = "[unknown]"
    · simp [reportStep, h1, hne, hcv]
    · cases hga : g cv with
      | none => simp [reportStep, h1, hne, hcv, hga]
      | some a =>
          cases hgb : g uv with
          | none => simp [reportStep, h1, hne, hcv, hga, hgb]
          | some b => simp [reportStep, h1, hne, hcv, hga, hgb]

/-- C2 witness: the concrete `envFull` run upgraded from 3.9.0 to 3.10.0 with
both identifiers resolvable, so its report events are the success report and
the comparison link. -/
theorem run_report_behaviour_witness :
    (run envFull).1.filter isReportEvent =
      [Event.successUpgraded "3.9.0" "3.10.0",
       Event.infoChangelog "https://github.com/nuxt/nuxt/compare/v3.9.0...v3.10.0"] := by
  have h := (run_report_behaviour envFull
    { name := "yarn", lockFile := some (.one "yarn.lock") } rfl).1
  rw [h]
  decide

/-! ## C4 — the force decision -/

/-- C4: the confirm prompt occurs in a run's trace exactly when the explicit
force flag is absent; whenever it occurs it carries default answer yes; an
explicit flag (true or false) is used directly as the decision with no
prompting; an absent flag makes the prompt's answer the decision; and the
final filesystem is decided by exactly that decision. -/
theorem run_force_decision (env : Env) (pm : PackageManager)
    (hpm : env.pm = some pm) :
    ((Event.confirmPrompt true ∈ (run env).1) ↔ env.argsForce = none) ∧
    (∀ d, Event.confirmPrompt d ∈ (run env).1 → d = true) ∧
    (∀ b, env.argsForce = some b →
       (decideForce env.argsForce env.forcePromptAnswer).1 = b ∧
       (decideForce env.argsForce env.forcePromptAnswer).2 = []) ∧
    (env.argsForce = none →
       (decideForce env.argsForce env.forcePromptAnswer).1 =
         env.forcePromptAnswer) ∧
    ((run env).2 =
      if (decideForce env.argsForce env.forcePromptAnswer).1 = true
      then forceApply env.cwd (lockFileOf env) env.fs0 else env.fs0) := by
  have hrep := fun d => not_mem_reportStep (e := Event.confirmPrompt d) rfl
    ((getNuxtVersion env.rawNuxtPkgBefore).getD "[unknown]")
    ((getNuxtVersion env.rawNuxtPkgAfter).getD "[unknown]") env.gitId
  rw [run_of_pm hpm]
  refine ⟨?_, ?_, ?_, ?_, ?_⟩
  · rw [mem_runMain_iff]
    simp [hrep true]
  · intro d
    rw [mem_runMain_iff]
    simp [hrep d]
  · intro b hb
    simp [decideForce, hb]
  · intro hb
    simp [decideForce, hb]
  · simp [runMain, lockFileOf, hpm]

/-- C4 witness: `envFull` gives no explicit flag, so the prompt is consulted
(default yes) and its answer is the decision. -/
theorem run_force_decision_witness :
    Event.confirmPrompt true ∈ (run envFull).1 ∧
    (decideForce envFull.argsForce envFull.forcePromptAnswer).1 =
      envFull.forcePromptAnswer := by
  have h := run_force_decision envFull
    { name := "yarn", lockFile := some (.one "yarn.lock") } rfl
  exact ⟨h.1.mpr rfl, h.2.2.2.1 rfl⟩

/-! ## C9 — the installer honours the classification -/

/-- C9: the run invokes the installer exactly once, with the resolved
specifiers and with the development flag true if and only if the pre-upgrade
classification returned `devDependencies`. -/
theorem run_install_honours_class (env : Env) (pm : PackageManager)
    (hpm : env.pm = some pm) :
    Event.install (npmPackagesOf env)
      (if depTypeOf env = DepType.devDependencies then true else false) ∈
        (run env).1 ∧
    (∀ ps d, Event.install ps d ∈ (run env).1 →
       ps = npmPackagesOf env ∧
       (d = true ↔ depTypeOf env = DepType.devDependencies)) := by
  rw [run_of_pm hpm]
  constructor
  · rw [mem_runMain_iff]
    simp
  · intro ps d
    have hrep := not_mem_reportStep (e := Event.install ps d) rfl
      ((getNuxtVersion env.rawNuxtPkgBefore).getD "[unknown]")
      ((getNuxtVersion env.rawNuxtPkgAfter).getD "[unknown]") env.gitId
    rw [mem_runMain_iff]
    simp [hrep]
    intro hps hd
    refine ⟨hps, ?_⟩
    rw [hd]
    simp

/-- C9 witness: in `envFull` nuxt is declared under `devDependencies`, and
the installer is invoked with the development flag set. -/
theorem run_install_honours_class_witness :
    Event.install ["nuxt@latest"] true ∈ (run envFull).1 := by
  have h := (run_install_honours_class envFull
    { name := "yarn", lockFile := some (.one "yarn.lock") } rfl).1
  have e1 : npmPackagesOf envFull = ["nuxt@latest"] := by decide
  have e2 : (if depTypeOf envFull = DepType.devDependencies then true else false)
      = true := by decide
  rw [e1, e2] at h
  exact h

end Upgrade
